import Mathlib

/-
Verification of the anchor-aware YAML key-stripping transform implemented
in src/yaml_stripper.py (class YAMLStripper).

Modelling conventions (shallow embedding):
  * Text is modelled as List Char.  A YAML document's raw text and every
    emitted output are character lists.
  * Python dicts are modelled as association lists (List (String x _)) with
    unique keys; dict update keeps the position of an existing key and
    appends new keys at the end (dinsert), exactly like CPython dicts.
  * The third-party YAML library is NOT code of this repository.
    yaml.safe_load is modelled by passing its result (an Except: parse
    error or a parsed value) as an input of the transform, and yaml.dump
    is modelled as a function parameter (dump / dumpBody) that the
    theorems quantify over; concrete instantiations in witnesses use the
    output real pyyaml produces on the same value.
  * The regex character class for a word character is modelled as ASCII
    alphanumeric or underscore, and the whitespace class as the ASCII
    whitespace characters; the source patterns use Python str semantics
    where these classes additionally contain rare non-ASCII characters,
    which no claim depends on.
  * CPython iterates a set in an unspecified, hash-dependent order.  The
    referenced-anchor set (find_referenced_anchors returns a Python set)
    is modelled as the deduplicated list of names in first-occurrence
    order; no claim below depends on the particular order except where a
    claim asserts a sorted order, which the source does not implement
    under any set-iteration order (it never sorts).
-/

/-! ## Character classes (Python regex \s and \w, ASCII part) -/

def isSpaceChar (c : Char) : Bool :=
  c = ' ' || c = '\t' || c = '\n' || c = '\r' || c = '\x0b' || c = '\x0c'

def isWordChar (c : Char) : Bool :=
  c.isAlphanum || c = '_'

/-! ## Splitting text into lines: Python str.split('\n') keeps empty pieces -/

def splitLines : List Char → List (List Char)
  | [] => [[]]
  | c :: rest =>
    if c = '\n' then [] :: splitLines rest
    else
      match splitLines rest with
      | [] => [[c]]
      | h :: t => (c :: h) :: t

/-! ## Python dict as association list -/

/-- Python dict lookup (keys are unique, first match). -/
def alookup (k : String) : List (String × α) → Option α
  | [] => Option.none
  | kv :: rest => if kv.1 = k then some kv.2 else alookup k rest

/-- Python `d[k] = v`: replace in place when the key exists, else append. -/
def dinsert (k : String) (v : α) : List (String × α) → List (String × α)
  | [] => [(k, v)]
  | kv :: rest => if kv.1 = k then (k, v) :: rest else kv :: dinsert k v rest

/-! ## Anchor extraction: re.match(r'^(\s*)&(\w+)\s*(.+)$', line)

`matchAfterAmp indent t` models the engine after `^(\s*)&` has consumed the
maximal whitespace prefix `indent` and the ampersand, with `t` the rest of
the line.  Greedy matching with backtracking on this pattern resolves
deterministically:
  * group 2 `(\w+)` first takes the maximal word-character run `w`,
  * `\s*` takes the maximal whitespace run of the remainder `rest1`,
  * `(.+)` takes everything left (`rest2`) when that is nonempty;
  * otherwise the engine gives one character back: first from `\s*`
    (remainder is all whitespace: the final whitespace character becomes
    group 3), then from `(\w+)` (the line ends right after the word run:
    its final character becomes group 3, requiring at least two word
    characters). -/
def matchAfterAmp (indent t : List Char) :
    Option (List Char × List Char × List Char) :=
  let w := t.takeWhile isWordChar
  let rest1 := t.dropWhile isWordChar
  let rest2 := rest1.dropWhile isSpaceChar
  if w = [] then Option.none
  else if h2 : rest2 ≠ [] then some (indent, w, rest2)
  else if h1 : rest1 ≠ [] then some (indent, w, [rest1.getLast h1])
  else if hw : 2 ≤ w.length then
    some (indent, w.dropLast, [w.getLast (List.ne_nil_of_length_pos (by omega))])
  else Option.none

/-- Full line match of the anchor-definition pattern (line 45 of the source).
The line must begin with whitespace followed by an ampersand.  Returns the
captured groups (indentation, anchor name, content). -/
def matchAnchorLine (line : List Char) :
    Option (List Char × List Char × List Char) :=
  match line.dropWhile isSpaceChar with
  | [] => Option.none
  | c :: t =>
    if c = '&' then matchAfterAmp (line.takeWhile isSpaceChar) t
    else Option.none

/-- The stored replay line (line 48): f-string indent & name space content;
exactly one space is inserted between the name and the content. -/
def anchorReplayLine (indent name content : List Char) : List Char :=
  indent ++ '&' :: (name ++ ' ' :: content)

/-- One step of the extraction loop (lines 44-49): a matching line stores
its replay line under the anchor name, a non-matching line is skipped. -/
def anchorStep (acc : List (String × List Char)) (line : List Char) :
    List (String × List Char) :=
  match matchAnchorLine line with
  | some m => dinsert m.2.1.asString (anchorReplayLine m.1 m.2.1 m.2.2) acc
  | Option.none => acc

/-- YAMLStripper.extract_anchors (lines 29-51). -/
def extract_anchors (yaml_content : List Char) : List (String × List Char) :=
  (splitLines yaml_content).foldl anchorStep []

/-- The per-line matches of the whole text, in line order, as
(name, replay line) pairs; used to state properties of extract_anchors. -/
def anchorMatches (yaml_content : List Char) : List (String × List Char) :=
  (splitLines yaml_content).filterMap (fun line =>
    (matchAnchorLine line).map (fun m =>
      (m.2.1.asString, anchorReplayLine m.1 m.2.1 m.2.2)))

/-! ## Reference scan: re.findall(r'\*(\w+)', content_str) -/

/-- All matches of the alias pattern: an asterisk followed by a maximal
nonempty word-character run; scanning resumes after each match.  The
recursion is driven by a fuel argument (initially the text length, an
upper bound on the number of steps, since every step consumes at least
one character) to keep the definition structurally recursive. -/
def findRefsFuel : Nat → List Char → List String
  | 0, _ => []
  | _ + 1, [] => []
  | fuel + 1, c :: rest =>
    let w := rest.takeWhile isWordChar
    if c = '*' ∧ w ≠ [] then
      w.asString :: findRefsFuel fuel (rest.drop w.length)
    else findRefsFuel fuel rest

def findRefs (l : List Char) : List String :=
  findRefsFuel l.length l

/-- Model of collecting the findall results into a Python set: duplicates
removed; the list order stands in for the unspecified set-iteration order
(first occurrence). -/
def dedupFirst : List String → List String
  | [] => []
  | x :: xs => x :: (dedupFirst xs).filter (fun y => y ≠ x)

/-! ## Parsed YAML values (result of yaml.safe_load) -/

/-- A Python value as produced by yaml.safe_load: None, bool, int, str,
list, or dict (mapping keys modelled as strings). -/
inductive PyVal where
  | null
  | bool (b : Bool)
  | int (n : Int)
  | str (s : List Char)
  | seq (l : List PyVal)
  | map (m : List (String × PyVal))

/-- Python membership test `k in v` for a string k: dict key test, list
element test (equality of a str element), substring test on a str; raises
TypeError (modelled as error) on None, bool, int. -/
def keyInPy (k : String) (v : PyVal) : Except Unit Bool :=
  match v with
  | .map m => .ok (alookup k m).isSome
  | .seq l => .ok (l.any (fun e =>
      match e with
      | .str t => t = k.data
      | _ => false))
  | .str s => .ok (containsSub k.data s)
  | _ => .error ()
where
  startsWith : List Char → List Char → Bool
    | [], _ => true
    | _ :: _, [] => false
    | a :: as, b :: bs => a = b && startsWith as bs
  containsSub (pat : List Char) : List Char → Bool
    | [] => startsWith pat []
    | c :: rest => startsWith pat (c :: rest) || containsSub pat rest

/-- Python subscript `v[k]` for a string k: dict lookup (KeyError when
absent); TypeError on every other shape. -/
def getItemPy (k : String) (v : PyVal) : Except Unit PyVal :=
  match v with
  | .map m =>
    match alookup k m with
    | some x => .ok x
    | Option.none => .error ()
  | _ => .error ()

/-! ## The retention set and the key filter (lines 18-23 and 99-103) -/

/-- YAMLStripper.KEEP_KEYS.  The source stores these in a Python set whose
iteration order is unspecified; they are listed in source order.  No claim
depends on the iteration order. -/
def KEEP_KEYS : List String :=
  ["proxy-providers", "proxy-groups", "rule-providers", "rules"]

/-- The loop of lines 101-103: for key in KEEP_KEYS, if key in full_config
then stripped_config[key] = full_config[key].  Python exceptions from the
membership test or subscript propagate. -/
def keep_loop (full : PyVal) :
    List String → List (String × PyVal) → Except Unit (List (String × PyVal))
  | [], acc => .ok acc
  | k :: ks, acc =>
    match keyInPy k full with
    | .error e => .error e
    | .ok true =>
      match getItemPy k full with
      | .error e => .error e
      | .ok v => keep_loop full ks (dinsert k v acc)
    | .ok false => keep_loop full ks acc

/-! ## The stripped configuration dict -/

/-- A value of the stripped_config dict: either a retained YAML value or
the internal _anchors dict (anchor name to replay line). -/
inductive Entry where
  | yval (v : PyVal)
  | anch (a : List (String × List Char))

/-- The instance state of a YAMLStripper: the self.anchors field
(initialised to the empty dict in __init__, line 27). -/
structure StripperSt where
  anchors : List (String × List Char)

def initState : StripperSt := ⟨[]⟩

/-- YAMLStripper.strip_yaml (lines 73-115), with the instance state made
explicit.  `load` is the outcome of yaml.safe_load on `raw` (the library
is external to this repository); `dump` models yaml.dump as used by
find_referenced_anchors.  Line 90 reassigns self.anchors from the current
file before the parse; a yaml.YAMLError is caught and the empty dict is
returned (lines 93-97); a TypeError from the key loop propagates
(Except.error).  Lines 105-113 attach the _anchors entry, which is always
present on the success path. -/
def strip_yaml_st (dump : List (String × PyVal) → List Char)
    (raw : List Char) (load : Except Unit PyVal) (st : StripperSt) :
    StripperSt × Except Unit (List (String × Entry)) :=
  let table := extract_anchors raw
  let st' : StripperSt := ⟨table⟩
  match load with
  | .error _ => (st', .ok [])
  | .ok full =>
    match keep_loop full KEEP_KEYS [] with
    | .error e => (st', .error e)
    | .ok stripped =>
      let referenced := dedupFirst (findRefs (dump stripped))
      let anch := referenced.filterMap (fun n =>
        (alookup n st'.anchors).map (fun v => (n, v)))
      (st', .ok (dinsert "_anchors" (Entry.anch anch)
        (stripped.map (fun kv => (kv.1, Entry.yval kv.2)))))

/-- strip_yaml as run on a fresh instance. -/
def strip_yaml (dump : List (String × PyVal) → List Char)
    (raw : List Char) (load : Except Unit PyVal) :
    Except Unit (List (String × Entry)) :=
  (strip_yaml_st dump raw load initState).2

/-! ## count_providers (lines 117-134) -/

structure Counts where
  proxy_providers : Nat
  rule_providers : Nat
  proxy_groups : Nat
  rules : Nat
deriving DecidableEq

/-- Python len() on a stripped_config value: length of a str, list or
dict; TypeError (error) on None, bool, int. -/
def pyLen : Entry → Except Unit Nat
  | .yval (.str s) => .ok s.length
  | .yval (.seq l) => .ok l.length
  | .yval (.map m) => .ok m.length
  | .yval _ => .error ()
  | .anch a => .ok a.length

/-- Python config.get(k, d). -/
def pyGetD (config : List (String × Entry)) (k : String) (d : Entry) : Entry :=
  (alookup k config).getD d

/-- YAMLStripper.count_providers: len of each retained key's value, with
an empty dict default for the providers and an empty list default for
proxy-groups and rules; the first TypeError from len() propagates. -/
def count_providers (config : List (String × Entry)) : Except Unit Counts :=
  match pyLen (pyGetD config "proxy-providers" (.yval (.map []))) with
  | .error e => .error e
  | .ok a =>
    match pyLen (pyGetD config "rule-providers" (.yval (.map []))) with
    | .error e => .error e
    | .ok b =>
      match pyLen (pyGetD config "proxy-groups" (.yval (.seq []))) with
      | .error e => .error e
      | .ok c =>
        match pyLen (pyGetD config "rules" (.yval (.seq []))) with
        | .error e => .error e
        | .ok d => .ok ⟨a, b, c, d⟩

/-! ## save_stripped_yaml (lines 136-172) -/

/-- The dict actually serialized: stripped_config minus the _anchors key
(line 147). -/
def save_config (config : List (String × Entry)) : List (String × Entry) :=
  config.filter (fun kv => kv.1 ≠ "_anchors")

/-- The fixed banner comment lines (lines 159-162). -/
def bannerLines : List (List Char) :=
  [("# " ++ String.mk (List.replicate 76 '=')).data,
   "# 锚点定义 (Anchors)".data,
   ("# " ++ String.mk (List.replicate 76 '=')).data]

/-- Python '\n'.join. -/
def joinNL : List (List Char) → List Char
  | [] => []
  | [l] => l
  | l :: rest => l ++ '\n' :: joinNL rest

/-- YAMLStripper.save_stripped_yaml: serialize save_config with the
dumper, and when include_anchors is set and the _anchors key is present,
prepend the banner, the anchor replay lines in dict order, and a blank
line.  The written file's text is returned.  A non-dict _anchors value
would raise on .values() (unreachable from strip_yaml results). -/
def save_stripped_yaml (dumpBody : List (String × Entry) → List Char)
    (include_anchors : Bool) (config : List (String × Entry)) :
    Except Unit (List Char) :=
  let yaml_content := dumpBody (save_config config)
  if include_anchors then
    match alookup "_anchors" config with
    | some (.anch a) =>
      .ok (joinNL (bannerLines ++ a.map (fun kv => kv.2) ++ [[]])
        ++ '\n' :: yaml_content)
    | some (.yval _) => .error ()
    | Option.none => .ok yaml_content
  else .ok yaml_content

/-! ## process_directory (lines 174-217) -/

/-- One input file: its name, raw text, and the outcome of yaml.safe_load
on that text (ok value, or error for a yaml.YAMLError). -/
structure FileInput where
  name : String
  raw : List Char
  load : Except Unit PyVal

/-- One entry of the results list: filename, counts, and the text written
to the output file. -/
structure BatchRecord where
  name : String
  counts : Counts
  output : List Char

/-- The per-file outcome when a file is processed alone by a fresh
YAMLStripper: no record when the file is skipped (per-file exception, or
falsy stripped config), otherwise the counts and the written output. -/
def processFile (dump : List (String × PyVal) → List Char)
    (dumpBody : List (String × Entry) → List Char) (f : FileInput) :
    Option BatchRecord :=
  match strip_yaml dump f.raw f.load with
  | .error _ => Option.none
  | .ok [] => Option.none
  | .ok cfg =>
    match count_providers cfg with
    | .error _ => Option.none
    | .ok cts =>
      match save_stripped_yaml dumpBody true cfg with
      | .error _ => Option.none
      | .ok out => some ⟨f.name, cts, out⟩

/-- The loop body of process_directory (lines 191-215): the shared
instance state is threaded through strip_yaml; a per-file exception or a
falsy stripped config adds no record (the try/except and the
`if not stripped_config` skip). -/
def process_step (dump : List (String × PyVal) → List Char)
    (dumpBody : List (String × Entry) → List Char)
    (acc : StripperSt × List BatchRecord) (f : FileInput) :
    StripperSt × List BatchRecord :=
  let r := strip_yaml_st dump f.raw f.load acc.1
  match r.2 with
  | .error _ => (r.1, acc.2)
  | .ok [] => (r.1, acc.2)
  | .ok cfg =>
    match count_providers cfg with
    | .error _ => (r.1, acc.2)
    | .ok cts =>
      match save_stripped_yaml dumpBody true cfg with
      | .error _ => (r.1, acc.2)
      | .ok out => (r.1, acc.2 ++ [⟨f.name, cts, out⟩])

/-- YAMLStripper.process_directory: one YAMLStripper instance processes
every file in order, accumulating the results list. -/
def process_directory (dump : List (String × PyVal) → List Char)
    (dumpBody : List (String × Entry) → List Char)
    (files : List FileInput) : List BatchRecord :=
  (files.foldl (process_step dump dumpBody) (initState, [])).2

/-! ## Helper lemmas on the dict model -/

theorem alookup_dinsert (n k : String) (v : α) (d : List (String × α)) :
    alookup n (dinsert k v d) = if k = n then some v else alookup n d := by
  induction d with
  | nil => simp [dinsert, alookup]
  | cons kv rest ih =>
    by_cases hk : kv.1 = k
    · simp only [dinsert, hk, if_pos rfl, alookup]
      by_cases hn : k = n
      · simp [hn]
      · have : kv.1 ≠ n := by rw [hk]; exact hn
        simp [hn, this, alookup]
    · simp only [dinsert, if_neg hk, alookup]
      by_cases h1 : kv.1 = n
      · have : k ≠ n := by intro h; rw [h] at hk; exact hk h1
        simp [h1, this]
      · simp [h1, ih]

theorem fst_mem_dinsert (kv : String × α) (k : String) (v : α)
    (d : List (String × α)) : kv ∈ dinsert k v d → kv.1 = k ∨ kv ∈ d := by
  induction d with
  | nil =>
    intro h
    simp only [dinsert, List.mem_singleton] at h
    left; simp [h]
  | cons x rest ih =>
    intro h
    simp only [dinsert] at h
    by_cases hx : x.1 = k
    · rw [if_pos hx] at h
      cases List.mem_cons.mp h with
      | inl h1 => left; simp [h1]
      | inr h1 => right; exact List.mem_cons_of_mem x h1
    · rw [if_neg hx] at h
      cases List.mem_cons.mp h with
      | inl h1 => right; rw [h1]; exact List.mem_cons_self x rest
      | inr h1 =>
        cases ih h1 with
        | inl h2 => left; exact h2
        | inr h2 => right; exact List.mem_cons_of_mem x h2

theorem keep_loop_keys (full : PyVal) :
    ∀ (ks : List String) (acc res : List (String × PyVal)),
      keep_loop full ks acc = .ok res → ∀ kv ∈ res, kv.1 ∈ ks ∨ kv ∈ acc := by
  intro ks
  induction ks with
  | nil =>
    intro acc res h kv hkv
    simp only [keep_loop] at h
    cases h
    right; exact hkv
  | cons k rest ih =>
    intro acc res h kv hkv
    simp only [keep_loop] at h
    cases hin : keyInPy k full with
    | error e => rw [hin] at h; cases h
    | ok b =>
      rw [hin] at h
      cases b with
      | false =>
        simp only at h
        rcases ih acc res h kv hkv with h2 | h2
        · left; exact List.mem_cons_of_mem k h2
        · right; exact h2
      | true =>
        simp only at h
        cases hget : getItemPy k full with
        | error e => rw [hget] at h; cases h
        | ok v =>
          rw [hget] at h
          rcases ih _ res h kv hkv with h2 | h2
          · left; exact List.mem_cons_of_mem k h2
          · rcases fst_mem_dinsert kv k v acc h2 with h3 | h3
            · left; rw [h3]; exact List.mem_cons_self k rest
            · right; exact h3

/-! ## Shape of strip_yaml results -/

theorem strip_yaml_st_eq (dump : List (String × PyVal) → List Char)
    (raw : List Char) (load : Except Unit PyVal) (s : StripperSt) :
    strip_yaml_st dump raw load s
      = (⟨extract_anchors raw⟩, strip_yaml dump raw load) := by
  cases load with
  | error e => rfl
  | ok full =>
    simp only [strip_yaml_st, strip_yaml, initState]
    cases keep_loop full KEEP_KEYS [] <;> rfl

theorem strip_yaml_ok_eq (dump : List (String × PyVal) → List Char)
    (raw : List Char) (full : PyVal) (stripped : List (String × PyVal))
    (h : keep_loop full KEEP_KEYS [] = .ok stripped) :
    strip_yaml dump raw (.ok full)
      = .ok (dinsert "_anchors"
          (Entry.anch ((dedupFirst (findRefs (dump stripped))).filterMap
            (fun n => (alookup n (extract_anchors raw)).map (fun v => (n, v)))))
          (stripped.map (fun kv => (kv.1, Entry.yval kv.2)))) := by
  simp only [strip_yaml, strip_yaml_st, h]

/-! ## Claim C1 -/

/-- Claim C1: for every source document that parses successfully (and in
fact for every strip_yaml result), every key of the mapping that
save_stripped_yaml serializes (save_config, the stripped configuration
with the internal _anchors key removed) lies in the retention set
KEEP_KEYS; no other top-level key and no bookkeeping key is ever part of
the serialized mapping. -/
theorem strip_save_keys_subset (dump : List (String × PyVal) → List Char)
    (raw : List Char) (load : Except Unit PyVal)
    (cfg : List (String × Entry)) (hok : strip_yaml dump raw load = .ok cfg) :
    ∀ kv ∈ save_config cfg, kv.1 ∈ KEEP_KEYS := by
  intro kv hkv
  simp only [save_config, List.mem_filter, decide_eq_true_eq] at hkv
  obtain ⟨hmem, hne⟩ := hkv
  cases load with
  | error e =>
    simp only [strip_yaml, strip_yaml_st] at hok
    cases hok
    cases hmem
  | ok full =>
    cases hkeep : keep_loop full KEEP_KEYS [] with
    | error e =>
      rw [strip_yaml, strip_yaml_st] at hok
      simp only [hkeep] at hok
      exact Except.noConfusion hok
    | ok stripped =>
      rw [strip_yaml_ok_eq dump raw full stripped hkeep] at hok
      cases hok
      rcases fst_mem_dinsert kv _ _ _ hmem with h1 | h1
      · exact absurd h1 hne
      · rcases List.mem_map.mp h1 with ⟨kv0, hkv0, hkv0eq⟩
        have := keep_loop_keys full KEEP_KEYS [] stripped hkeep kv0 hkv0
        rcases this with h2 | h2
        · rw [← hkv0eq]; exact h2
        · cases h2

/-- Witness for C1 at a concrete input: a parsed document with the keys
dns and rules; strip_yaml keeps only rules plus the bookkeeping entry, and
the theorem applied to the entry of the serialized mapping places its key
in the retention set. -/
theorem strip_save_keys_subset_witness :
    strip_yaml (fun _ => []) []
        (.ok (.map [("dns", .str []), ("rules", .seq [])]))
      = .ok [("rules", Entry.yval (.seq [])), ("_anchors", Entry.anch [])]
    ∧ ("rules" : String) ∈ KEEP_KEYS := by
  refine ⟨rfl, ?_⟩
  have hmem : ("rules", Entry.yval (PyVal.seq []))
      ∈ save_config [("rules", Entry.yval (.seq [])), ("_anchors", Entry.anch [])] := by
    rw [show save_config [("rules", Entry.yval (.seq [])), ("_anchors", Entry.anch [])]
        = [("rules", Entry.yval (.seq []))] from rfl]
    exact List.mem_singleton.mpr rfl
  exact strip_save_keys_subset (fun _ => []) []
    (.ok (.map [("dns", .str []), ("rules", .seq [])])) _ rfl
    ("rules", Entry.yval (PyVal.seq [])) hmem

/-! ## Claim C2: the empty-retention skip does not happen -/

/-- Claim C2 (code bug): the spec says a parsed mapping with none of the
four retained keys (e.g. a file containing only mode: rule) produces no
output file and is reported as skipped.  In the code, line 109 always
adds the internal _anchors key to stripped_config, so the falsiness test
of line 196 never fires on the success path: strip_yaml returns the
nonempty dict containing only _anchors, and process_directory counts,
saves and records the file.  At the failing input (a file whose text is
mode: rule, loaded as a one-key mapping), the batch produces a record and
writes a banner plus an empty mapping body, contradicting the claim.
The dumper is instantiated with pyyaml's actual output on the empty dict. -/
theorem empty_retention_still_writes :
    strip_yaml (fun _ => []) "mode: rule".data
        (.ok (.map [("mode", .str "rule".data)]))
      = .ok [("_anchors", Entry.anch [])]
    ∧ (process_directory (fun _ => []) (fun _ => "\x7b\x7d\n".data)
        [⟨"config.yaml", "mode: rule".data,
          .ok (.map [("mode", .str "rule".data)])⟩]).map
        (fun r => r.name) = ["config.yaml"] := by
  exact ⟨rfl, rfl⟩

/-! ## State independence and the batch loop -/

theorem process_step_eq (dump : List (String × PyVal) → List Char)
    (dumpBody : List (String × Entry) → List Char)
    (s : StripperSt) (acc : List BatchRecord) (f : FileInput) :
    process_step dump dumpBody (s, acc) f
      = (⟨extract_anchors f.raw⟩,
         acc ++ (processFile dump dumpBody f).toList) := by
  simp only [process_step, processFile, strip_yaml_st_eq]
  cases hs : strip_yaml dump f.raw f.load with
  | error e => simp
  | ok cfg =>
    cases cfg with
    | nil => simp
    | cons kv rest =>
      cases hc : count_providers (kv :: rest) with
      | error e => simp [hc]
      | ok cts =>
        cases hv : save_stripped_yaml dumpBody true (kv :: rest) with
        | error e => simp [hc, hv]
        | ok out => simp [hc, hv]

theorem process_steps_eq (dump : List (String × PyVal) → List Char)
    (dumpBody : List (String × Entry) → List Char) (files : List FileInput) :
    ∀ (s : StripperSt) (acc : List BatchRecord),
      (files.foldl (process_step dump dumpBody) (s, acc)).2
        = acc ++ files.filterMap (processFile dump dumpBody) := by
  induction files with
  | nil => intro s acc; simp
  | cons f fs ih =>
    intro s acc
    simp only [List.foldl_cons, List.filterMap_cons, process_step_eq]
    rw [ih]
    cases processFile dump dumpBody f <;> simp

/-! ## Claim C10 -/

/-- Claim C10: the Anchor Table lives in the mutable instance field
self.anchors, but strip_yaml reassigns it wholesale from the current
file's text before any read, so its result does not depend on the
incoming instance state, and a batch run over one shared instance
produces for every file exactly the record that a fresh instance
processing that file alone would produce. -/
theorem stripper_state_no_leak (dump : List (String × PyVal) → List Char)
    (dumpBody : List (String × Entry) → List Char)
    (raw : List Char) (load : Except Unit PyVal) (files : List FileInput) :
    (∀ s : StripperSt,
      (strip_yaml_st dump raw load s).2 = strip_yaml dump raw load)
    ∧ process_directory dump dumpBody files
        = files.filterMap (processFile dump dumpBody) := by
  constructor
  · intro s
    rw [strip_yaml_st_eq]
  · rw [process_directory, process_steps_eq]
    simp

/-! ## Claim C7 -/

/-- Claim C7: a file whose text fails to parse (yaml.safe_load raises a
yaml.YAMLError) is caught inside strip_yaml, which returns the empty
falsy dict; the batch then skips the file: it contributes no record and
no written output, and the records of the remaining files are exactly
those of the batch without it — no per-file failure aborts
process_directory. -/
theorem parse_error_file_skipped (dump : List (String × PyVal) → List Char)
    (dumpBody : List (String × Entry) → List Char)
    (f : FileInput) (fs1 fs2 : List FileInput)
    (h : f.load = .error ()) :
    processFile dump dumpBody f = Option.none
    ∧ process_directory dump dumpBody (fs1 ++ f :: fs2)
        = process_directory dump dumpBody (fs1 ++ fs2) := by
  have hp : processFile dump dumpBody f = Option.none := by
    simp only [processFile, strip_yaml, strip_yaml_st, h]
  refine ⟨hp, ?_⟩
  rw [process_directory, process_directory, process_steps_eq, process_steps_eq]
  simp [List.filterMap_append, hp]

/-- Witness for C7 at concrete inputs: a malformed middle file between two
well-formed files is skipped and the batch result equals the result
without it. -/
theorem parse_error_file_skipped_witness :
    (FileInput.mk "bad.yaml" "rules: [".data (.error ())).load = .error ()
    ∧ (processFile (fun _ => []) (fun _ => [])
        ⟨"bad.yaml", "rules: [".data, .error ()⟩ = Option.none
      ∧ process_directory (fun _ => []) (fun _ => [])
          [⟨"a.yaml", "rules: []".data, .ok (.map [("rules", .seq [])])⟩,
           ⟨"bad.yaml", "rules: [".data, .error ()⟩,
           ⟨"b.yaml", "rules: []".data, .ok (.map [("rules", .seq [])])⟩]
        = process_directory (fun _ => []) (fun _ => [])
          [⟨"a.yaml", "rules: []".data, .ok (.map [("rules", .seq [])])⟩,
           ⟨"b.yaml", "rules: []".data, .ok (.map [("rules", .seq [])])⟩]) := by
  refine ⟨rfl, ?_⟩
  exact parse_error_file_skipped (fun _ => []) (fun _ => [])
    ⟨"bad.yaml", "rules: [".data, .error ()⟩
    [⟨"a.yaml", "rules: []".data, .ok (.map [("rules", .seq [])])⟩]
    [⟨"b.yaml", "rules: []".data, .ok (.map [("rules", .seq [])])⟩] rfl

/-! ## Claim C8 -/

/-- The number of entries a collection-shaped stripped value has: the spec
notion used by the counting claim (dict entries or list elements). -/
def collLen : Entry → Option Nat
  | .yval (.map m) => some m.length
  | .yval (.seq l) => some l.length
  | _ => Option.none

/-- The key k holds exactly n entries in the config: absent keys count
zero, present keys hold a collection with n entries. -/
def keyEntryCount (config : List (String × Entry)) (k : String) (n : Nat) :
    Prop :=
  (alookup k config = Option.none ∧ n = 0)
  ∨ (∃ e, alookup k config = some e ∧ collLen e = some n)

theorem pyLen_of_collLen (e : Entry) (n : Nat) (h : collLen e = some n) :
    pyLen e = .ok n := by
  cases e with
  | yval v =>
    cases v with
    | map m => simp only [collLen, Option.some.injEq] at h; simp [pyLen, h]
    | seq l => simp only [collLen, Option.some.injEq] at h; simp [pyLen, h]
    | null => simp [collLen] at h
    | bool b => simp [collLen] at h
    | int i => simp [collLen] at h
    | str s => simp [collLen] at h
  | anch a => simp [collLen] at h

theorem pyGetD_len_of_keyEntryCount (config : List (String × Entry))
    (k : String) (n : Nat) (d : Entry)
    (hd : collLen d = some 0) (h : keyEntryCount config k n) :
    pyLen (pyGetD config k d) = .ok n := by
  rcases h with ⟨habs, hn⟩ | ⟨e, hpres, hlen⟩
  · rw [pyGetD, habs, hn]
    exact pyLen_of_collLen d 0 hd
  · rw [pyGetD, hpres]
    exact pyLen_of_collLen e n hlen

/-- Claim C8: count_providers reports, per retained key, exactly the
number of entries under that key in the stripped configuration, counting
zero for an absent key. -/
theorem count_providers_entry_counts (config : List (String × Entry))
    (pp rp pg rl : Nat)
    (h1 : keyEntryCount config "proxy-providers" pp)
    (h2 : keyEntryCount config "rule-providers" rp)
    (h3 : keyEntryCount config "proxy-groups" pg)
    (h4 : keyEntryCount config "rules" rl) :
    count_providers config = .ok ⟨pp, rp, pg, rl⟩ := by
  rw [count_providers,
    pyGetD_len_of_keyEntryCount config "proxy-providers" pp
      (.yval (.map [])) rfl h1,
    pyGetD_len_of_keyEntryCount config "rule-providers" rp
      (.yval (.map [])) rfl h2,
    pyGetD_len_of_keyEntryCount config "proxy-groups" pg
      (.yval (.seq [])) rfl h3,
    pyGetD_len_of_keyEntryCount config "rules" rl
      (.yval (.seq [])) rfl h4]

/-- Witness for C8 at the concrete input of the claim: three entries
under proxy-providers, two under rule-providers, the other retained keys
absent; the reported counts are 3, 2, 0, 0. -/
theorem count_providers_entry_counts_witness :
    (keyEntryCount
        [("proxy-providers", Entry.yval (.map [("a", .null), ("b", .null), ("c", .null)])),
         ("rule-providers", Entry.yval (.map [("x", .null), ("y", .null)])),
         ("_anchors", Entry.anch [])] "proxy-providers" 3)
    ∧ count_providers
        [("proxy-providers", Entry.yval (.map [("a", .null), ("b", .null), ("c", .null)])),
         ("rule-providers", Entry.yval (.map [("x", .null), ("y", .null)])),
         ("_anchors", Entry.anch [])]
      = .ok ⟨3, 2, 0, 0⟩ := by
  constructor
  · exact Or.inr ⟨_, rfl, rfl⟩
  · exact count_providers_entry_counts _ 3 2 0 0
      (Or.inr ⟨_, rfl, rfl⟩) (Or.inr ⟨_, rfl, rfl⟩)
      (Or.inl ⟨rfl, rfl⟩) (Or.inl ⟨rfl, rfl⟩)

/-! ## Claim C4 -/

/-- The replay line of the last entry for a given name in a match list:
later lines take precedence, no merging of earlier definitions. -/
def lastMatch (n : String) : List (String × List Char) → Option (List Char)
  | [] => Option.none
  | kv :: rest =>
    match lastMatch n rest with
    | some v => some v
    | Option.none => if kv.1 = n then some kv.2 else Option.none

theorem alookup_foldl_dinsert (n : String) (l : List (String × List Char)) :
    ∀ acc : List (String × List Char),
      alookup n (l.foldl (fun a kv => dinsert kv.1 kv.2 a) acc)
        = match lastMatch n l with
          | some v => some v
          | Option.none => alookup n acc := by
  induction l with
  | nil => intro acc; rfl
  | cons x xs ih =>
    intro acc
    rw [List.foldl_cons, ih]
    simp only [lastMatch]
    cases lastMatch n xs with
    | some v => rfl
    | none =>
      simp only [alookup_dinsert]
      by_cases hx : x.1 = n
      · simp [hx]
      · simp [hx]

theorem foldl_anchorStep_eq (lines : List (List Char)) :
    ∀ acc : List (String × List Char),
      lines.foldl anchorStep acc
        = (lines.filterMap (fun line =>
            (matchAnchorLine line).map (fun m =>
              (m.2.1.asString, anchorReplayLine m.1 m.2.1 m.2.2)))).foldl
            (fun a kv => dinsert kv.1 kv.2 a) acc := by
  induction lines with
  | nil => intro acc; rfl
  | cons line rest ih =>
    intro acc
    rw [List.foldl_cons]
    cases hm : matchAnchorLine line with
    | none =>
      rw [show anchorStep acc line = acc by rw [anchorStep, hm], ih]
      simp [List.filterMap_cons, hm]
    | some m =>
      rw [show anchorStep acc line
          = dinsert m.2.1.asString (anchorReplayLine m.1 m.2.1 m.2.2) acc
        by rw [anchorStep, hm]]
      rw [ih]
      simp [List.filterMap_cons, hm]

/-- Claim C4: when the same anchor name matches the anchor-definition
pattern on several lines, extract_anchors maps the name to the replay
line built from the last matching occurrence in line order (later dict
assignments overwrite earlier ones; no merging). -/
theorem extract_anchors_last_occurrence (yaml_content : List Char)
    (n : String) :
    alookup n (extract_anchors yaml_content)
      = lastMatch n (anchorMatches yaml_content) := by
  rw [extract_anchors, foldl_anchorStep_eq, ← anchorMatches,
    alookup_foldl_dinsert]
  cases lastMatch n (anchorMatches yaml_content) <;> rfl

/-! ## The _anchors entry of a strip_yaml result -/

theorem strip_anchors_entry (dump : List (String × PyVal) → List Char)
    (raw : List Char) (full : PyVal) (stripped : List (String × PyVal))
    (cfg : List (String × Entry)) (A : List (String × List Char))
    (hkeep : keep_loop full KEEP_KEYS [] = .ok stripped)
    (hok : strip_yaml dump raw (.ok full) = .ok cfg)
    (hA : alookup "_anchors" cfg = some (.anch A)) :
    A = (dedupFirst (findRefs (dump stripped))).filterMap
          (fun m => (alookup m (extract_anchors raw)).map (fun w => (m, w))) := by
  rw [strip_yaml_ok_eq dump raw full stripped hkeep] at hok
  cases hok
  rw [alookup_dinsert, if_pos rfl] at hA
  have h1 := Option.some.inj hA
  injection h1 with h2
  exact h2.symm

theorem mem_filterMap_lookup (table : List (String × List Char))
    (refs : List String) (n : String) (v : List Char) :
    (n, v) ∈ refs.filterMap (fun m => (alookup m table).map (fun w => (m, w)))
      ↔ n ∈ refs ∧ alookup n table = some v := by
  constructor
  · intro hmem
    rcases List.mem_filterMap.mp hmem with ⟨m, hm, hf⟩
    cases hl : alookup m table with
    | none => rw [hl] at hf; cases hf
    | some w =>
      rw [hl] at hf
      have hf2 : (m, w) = (n, v) := Option.some.inj hf
      injection hf2 with hmn hwv
      subst hmn; subst hwv
      exact ⟨hm, hl⟩
  · rintro ⟨href, hl⟩
    exact List.mem_filterMap.mpr ⟨n, href, by rw [hl]; rfl⟩

/-! ## Claim C5 -/

/-- Claim C5: an entry of the emitted anchor dict exists exactly for a
name that is both in the Referenced-Anchor Set (the names scanned from
the dumper's serialization of the stripped configuration) and in the
Anchor Table built from the same source text, and its replay line is the
table's; a referenced name absent from the table is silently dropped and
never produces a fabricated line. -/
theorem anchors_entry_sound (dump : List (String × PyVal) → List Char)
    (raw : List Char) (full : PyVal) (stripped : List (String × PyVal))
    (cfg : List (String × Entry)) (A : List (String × List Char))
    (n : String) (v : List Char)
    (hkeep : keep_loop full KEEP_KEYS [] = .ok stripped)
    (hok : strip_yaml dump raw (.ok full) = .ok cfg)
    (hA : alookup "_anchors" cfg = some (.anch A)) :
    (n, v) ∈ A
      ↔ n ∈ dedupFirst (findRefs (dump stripped))
        ∧ alookup n (extract_anchors raw) = some v := by
  rw [strip_anchors_entry dump raw full stripped cfg A hkeep hok hA]
  exact mem_filterMap_lookup (extract_anchors raw)
    (dedupFirst (findRefs (dump stripped))) n v

/-- Witness for C5 at a concrete input: the source defines anchors a and
c; the serialization of the stripped configuration references a and b.
The emitted dict holds exactly the entry for a (b has no table entry and
is dropped; c is unreferenced). -/
theorem anchors_entry_sound_witness :
    keep_loop (.map [("rules", .seq [])]) KEEP_KEYS []
      = .ok [("rules", PyVal.seq [])]
    ∧ strip_yaml (fun _ => "*a *b".data) "&a x: 1\n&c y: 2".data
        (.ok (.map [("rules", .seq [])]))
      = .ok [("rules", Entry.yval (.seq [])),
             ("_anchors", Entry.anch [("a", "&a x: 1".data)])]
    ∧ (("a", "&a x: 1".data) ∈ [("a", "&a x: 1".data)]
        ↔ "a" ∈ dedupFirst (findRefs ((fun _ => "*a *b".data)
              [("rules", PyVal.seq [])]))
          ∧ alookup "a" (extract_anchors "&a x: 1\n&c y: 2".data)
              = some "&a x: 1".data) := by
  refine ⟨rfl, rfl, ?_⟩
  exact anchors_entry_sound (fun _ => "*a *b".data) "&a x: 1\n&c y: 2".data
    (.map [("rules", .seq [])]) [("rules", PyVal.seq [])]
    [("rules", Entry.yval (.seq [])),
     ("_anchors", Entry.anch [("a", "&a x: 1".data)])]
    [("a", "&a x: 1".data)] "a" "&a x: 1".data rfl rfl rfl

/-! ## Claim C6 -/

/-- Alphabetical (code-point lexicographic) order on names, the order the
claim asserts for the anchor block. -/
def alphaLe : List Char → List Char → Bool
  | [], _ => true
  | _ :: _, [] => false
  | a :: as, b :: bs => if a = b then alphaLe as bs else decide (a < b)

/-- The names appear in alphabetically sorted order. -/
def alphabeticallySorted : List String → Bool
  | [] => true
  | [_] => true
  | a :: b :: rest => alphaLe a.data b.data && alphabeticallySorted (b :: rest)

theorem map_fst_filterMap_lookup (table : List (String × List Char))
    (refs : List String) :
    (refs.filterMap (fun m => (alookup m table).map (fun w => (m, w)))).map
        (fun kv => kv.1)
      = refs.filter (fun m => (alookup m table).isSome) := by
  induction refs with
  | nil => rfl
  | cons r rs ih =>
    cases h : alookup r table with
    | none => simp [List.filterMap_cons, List.filter_cons, h, ih]
    | some w => simp [List.filterMap_cons, List.filter_cons, h, ih]

/-- Claim C6, amended: when save_stripped_yaml emits an anchor block, the
output is the fixed banner, then the anchor replay lines in the order of
the _anchors dict, then a blank line, then the serialized body; and that
order is the set-iteration order of the referenced names filtered by
table membership — the code never sorts it alphabetically. -/
theorem anchor_block_structure (dump : List (String × PyVal) → List Char)
    (dumpBody : List (String × Entry) → List Char)
    (raw : List Char) (full : PyVal) (stripped : List (String × PyVal))
    (cfg : List (String × Entry)) (A : List (String × List Char))
    (out : List Char)
    (hkeep : keep_loop full KEEP_KEYS [] = .ok stripped)
    (hok : strip_yaml dump raw (.ok full) = .ok cfg)
    (hA : alookup "_anchors" cfg = some (.anch A))
    (hsave : save_stripped_yaml dumpBody true cfg = .ok out) :
    out = joinNL (bannerLines ++ A.map (fun kv => kv.2) ++ [[]])
        ++ '\n' :: dumpBody (save_config cfg)
    ∧ A.map (fun kv => kv.1)
        = (dedupFirst (findRefs (dump stripped))).filter
            (fun m => (alookup m (extract_anchors raw)).isSome) := by
  constructor
  · rw [save_stripped_yaml, if_pos rfl, hA] at hsave
    exact (Option.some.inj (congrArg Except.toOption hsave)).symm
  · rw [strip_anchors_entry dump raw full stripped cfg A hkeep hok hA]
    exact map_fst_filterMap_lookup (extract_anchors raw)
      (dedupFirst (findRefs (dump stripped)))

/-- Witness for the amended C6 at a concrete input (the same pipeline as
the counterexample): the emitted text is banner, replay lines in
referenced order, blank line, body. -/
theorem anchor_block_structure_witness :
    save_stripped_yaml (fun _ => "rules: []\n".data) true
        [("rules", Entry.yval (.seq [])),
         ("_anchors", Entry.anch [("b", "&b x".data), ("a", "&a y".data)])]
      = .ok (joinNL (bannerLines ++ ["&b x".data, "&a y".data] ++ [[]])
          ++ '\n' :: "rules: []\n".data)
    ∧ ["b", "a"]
        = (dedupFirst (findRefs ((fun _ => "*b *a".data)
            [("rules", PyVal.seq [])]))).filter
            (fun m => (alookup m (extract_anchors "&b x\n&a y".data)).isSome) := by
  have h := anchor_block_structure (fun _ => "*b *a".data)
    (fun _ => "rules: []\n".data) "&b x\n&a y".data
    (.map [("rules", .seq [])]) [("rules", PyVal.seq [])]
    [("rules", Entry.yval (.seq [])),
     ("_anchors", Entry.anch [("b", "&b x".data), ("a", "&a y".data)])]
    [("b", "&b x".data), ("a", "&a y".data)]
    (joinNL (bannerLines ++ ["&b x".data, "&a y".data] ++ [[]])
      ++ '\n' :: "rules: []\n".data)
    rfl rfl rfl rfl
  exact ⟨rfl, h.2⟩

/-- Counterexample to C6 as stated: a concrete run in which the filtered
anchor set is non-empty and the block's replay lines are in the order of
the referenced-name scan (b before a), not alphabetically sorted; the
source contains no sorting step. -/
theorem anchor_block_not_sorted :
    strip_yaml (fun _ => "*b *a".data) "&b x\n&a y".data
        (.ok (.map [("rules", .seq [])]))
      = .ok [("rules", Entry.yval (.seq [])),
             ("_anchors", Entry.anch [("b", "&b x".data), ("a", "&a y".data)])]
    ∧ alphabeticallySorted ["b", "a"] = false
    ∧ alphabeticallySorted ["a", "b"] = true := ⟨rfl, rfl, rfl⟩

/-! ## Claim C9 -/

theorem keep_loop_congr (full full' : PyVal) :
    ∀ (ks : List String) (acc : List (String × PyVal)),
      (∀ k ∈ ks, keyInPy k full = keyInPy k full'
        ∧ getItemPy k full = getItemPy k full') →
      keep_loop full ks acc = keep_loop full' ks acc := by
  intro ks
  induction ks with
  | nil => intro acc _; rfl
  | cons k rest ih =>
    intro acc hagree
    have hk := hagree k (List.mem_cons_self k rest)
    have hrest : ∀ k2 ∈ rest, keyInPy k2 full = keyInPy k2 full'
        ∧ getItemPy k2 full = getItemPy k2 full' :=
      fun k2 hk2 => hagree k2 (List.mem_cons_of_mem k hk2)
    simp only [keep_loop, ← hk.1, ← hk.2]
    cases keyInPy k full with
    | error e => rfl
    | ok b =>
      cases b with
      | false => exact ih acc hrest
      | true =>
        cases getItemPy k full with
        | error e => rfl
        | ok v => exact ih (dinsert k v acc) hrest

/-- Claim C9, amended: the anchor block is a function of the retained
sections only — two parsed documents that agree on every retention-set
key (e.g. differing only in a dns section, aliases included) give
identical strip_yaml output, so a reference occurring only inside a
dropped section can never retain an anchor; and a name appears in the
block exactly when it occurs as an alias token in the dumper's
serialization of the stripped configuration and is defined in the Anchor
Table.  (As stated the claim is false: see the counterexample — a source
anchor referenced from a retained section is dropped whenever the loader
has expanded aliases, so the serialization contains no alias token.) -/
theorem anchor_liveness_serialized (dump : List (String × PyVal) → List Char)
    (raw : List Char) (full full' : PyVal) (stripped : List (String × PyVal))
    (cfg : List (String × Entry)) (A : List (String × List Char)) (n : String)
    (hagree : ∀ k ∈ KEEP_KEYS, keyInPy k full = keyInPy k full'
      ∧ getItemPy k full = getItemPy k full') :
    strip_yaml dump raw (.ok full) = strip_yaml dump raw (.ok full')
    ∧ (keep_loop full KEEP_KEYS [] = .ok stripped →
        strip_yaml dump raw (.ok full) = .ok cfg →
        alookup "_anchors" cfg = some (.anch A) →
        ((∃ v, (n, v) ∈ A)
          ↔ n ∈ dedupFirst (findRefs (dump stripped))
            ∧ (alookup n (extract_anchors raw)).isSome = true)) := by
  constructor
  · simp only [strip_yaml, strip_yaml_st,
      keep_loop_congr full full' KEEP_KEYS [] hagree]
  · intro hkeep hok hA
    rw [strip_anchors_entry dump raw full stripped cfg A hkeep hok hA]
    constructor
    · rintro ⟨v, hv⟩
      have := (mem_filterMap_lookup (extract_anchors raw)
        (dedupFirst (findRefs (dump stripped))) n v).mp hv
      exact ⟨this.1, by rw [this.2]; rfl⟩
    · rintro ⟨href, hsome⟩
      cases hl : alookup n (extract_anchors raw) with
      | none => rw [hl] at hsome; cases hsome
      | some v =>
        exact ⟨v, (mem_filterMap_lookup (extract_anchors raw)
          (dedupFirst (findRefs (dump stripped))) n v).mpr ⟨href, hl⟩⟩

/-- Witness for the amended C9: dropping a dns section (which holds the
only alias occurrence in the source) does not change the output, and a
name appears in the block exactly under the two conditions, instantiated
at a run where the dumper emits the alias token. -/
theorem anchor_liveness_serialized_witness :
    (∀ k ∈ KEEP_KEYS,
      keyInPy k (.map [("rules", .seq []), ("dns", .seq [.str "x".data])])
        = keyInPy k (.map [("rules", .seq [])])
      ∧ getItemPy k (.map [("rules", .seq []), ("dns", .seq [.str "x".data])])
        = getItemPy k (.map [("rules", .seq [])]))
    ∧ strip_yaml (fun _ => "*a".data) "&a x: 1".data
        (.ok (.map [("rules", .seq []), ("dns", .seq [.str "x".data])]))
      = strip_yaml (fun _ => "*a".data) "&a x: 1".data
        (.ok (.map [("rules", .seq [])]))
    ∧ ((∃ v, ("a", v) ∈ [("a", "&a x: 1".data)])
        ↔ "a" ∈ dedupFirst (findRefs ((fun _ => "*a".data)
              [("rules", PyVal.seq [])]))
          ∧ (alookup "a" (extract_anchors "&a x: 1".data)).isSome = true) := by
  have hagree : ∀ k ∈ KEEP_KEYS,
      keyInPy k (.map [("rules", .seq []), ("dns", .seq [.str "x".data])])
        = keyInPy k (.map [("rules", .seq [])])
      ∧ getItemPy k (.map [("rules", .seq []), ("dns", .seq [.str "x".data])])
        = getItemPy k (.map [("rules", .seq [])]) := by
    intro k hk
    fin_cases hk <;> exact ⟨rfl, rfl⟩
  have h := anchor_liveness_serialized (fun _ => "*a".data) "&a x: 1".data
    (.map [("rules", .seq []), ("dns", .seq [.str "x".data])])
    (.map [("rules", .seq [])]) [("rules", PyVal.seq [])]
    [("rules", Entry.yval (.seq [])),
     ("_anchors", Entry.anch [("a", "&a x: 1".data)])]
    [("a", "&a x: 1".data)] "a" hagree
  exact ⟨hagree, h.1, h.2 rfl (h.1.trans rfl) rfl⟩

/-- Counterexample to C9 as stated: in the source text the anchor a is
defined (line &a x: 1) and referenced (alias *a) inside the retained
rules section, yet with the dumper behaving as pyyaml does on the loaded
value (aliases were resolved by the loader, so the re-serialization
rules:\n- x\n contains no alias token) the emitted anchor block is
empty: the anchor referenced from a retained section does NOT appear. -/
theorem anchor_liveness_source_refs_lost :
    alookup "a" (extract_anchors "&a x: 1\nrules:\n- *a".data)
      = some "&a x: 1".data
    ∧ findRefs "&a x: 1\nrules:\n- *a".data = ["a"]
    ∧ strip_yaml (fun _ => "rules:\n- x\n".data) "&a x: 1\nrules:\n- *a".data
        (.ok (.map [("x", .int 1), ("rules", .seq [.str "x".data])]))
      = .ok [("rules", Entry.yval (.seq [.str "x".data])),
             ("_anchors", Entry.anch [])] := ⟨rfl, rfl, rfl⟩

/-! ## Claim C3: characterizing the anchor-definition pattern -/

theorem dropWhile_append_all (p : Char → Bool) (a l : List Char)
    (h : ∀ x ∈ a, p x = true) :
    (a ++ l).dropWhile p = l.dropWhile p := by
  induction a with
  | nil => rfl
  | cons x xs ih =>
    rw [List.cons_append, List.dropWhile_cons,
      if_pos (h x (List.mem_cons_self x xs))]
    exact ih (fun y hy => h y (List.mem_cons_of_mem x hy))

theorem takeWhile_ne_nil_head (p : Char → Bool) (t : List Char)
    (h : t.takeWhile p ≠ []) : ∃ x t2, t = x :: t2 ∧ p x = true := by
  cases t with
  | nil => exact absurd rfl h
  | cons x t2 =>
    rw [List.takeWhile_cons] at h
    by_cases hp : p x = true
    · exact ⟨x, t2, rfl, hp⟩
    · rw [if_neg hp] at h
      exact absurd rfl h

theorem length_take_drop_while (p : Char → Bool) (t : List Char) :
    t.length = (t.takeWhile p).length + (t.dropWhile p).length := by
  conv_lhs => rw [← List.takeWhile_append_dropWhile p t]
  rw [List.length_append]

theorem matchAfterAmp_isSome (indent t : List Char) :
    (matchAfterAmp indent t).isSome = true
      ↔ t.takeWhile isWordChar ≠ [] ∧ 2 ≤ t.length := by
  have hlen := length_take_drop_while isWordChar t
  unfold matchAfterAmp
  dsimp only
  split_ifs with h0 h2 h1 hw2
  · simp [h0]
  · simp only [Option.isSome_some, true_iff]
    refine ⟨h0, ?_⟩
    have hr1 : t.dropWhile isWordChar ≠ [] := by
      intro hcontra
      rw [hcontra] at h2
      exact h2 rfl
    have hwl : 0 < (t.takeWhile isWordChar).length := List.length_pos.mpr h0
    have hrl : 0 < (t.dropWhile isWordChar).length := List.length_pos.mpr hr1
    omega
  · simp only [Option.isSome_some, true_iff]
    refine ⟨h0, ?_⟩
    have hwl : 0 < (t.takeWhile isWordChar).length := List.length_pos.mpr h0
    have hrl : 0 < (t.dropWhile isWordChar).length := List.length_pos.mpr h1
    omega
  · simp only [Option.isSome_some, true_iff]
    refine ⟨h0, ?_⟩
    omega
  · simp only [Option.isSome_none, Bool.false_eq_true, false_iff, not_and]
    intro _
    have hr1 : (t.dropWhile isWordChar).length = 0 := by
      push_neg at h1
      rw [h1]
      rfl
    omega

theorem matchAnchorLine_eq_amp (line t : List Char)
    (hd : line.dropWhile isSpaceChar = '&' :: t) :
    matchAnchorLine line = matchAfterAmp (line.takeWhile isSpaceChar) t := by
  unfold matchAnchorLine
  rw [hd]
  exact if_pos rfl

/-- The decomposition the claim describes: leading whitespace, an
ampersand, a nonempty word-character identifier, optional whitespace, and
at least one further character. -/
def IsAnchorDecomp (line : List Char) : Prop :=
  ∃ a b c d : List Char,
    line = a ++ '&' :: (b ++ c ++ d)
    ∧ (∀ x ∈ a, isSpaceChar x = true)
    ∧ b ≠ []
    ∧ (∀ x ∈ b, isWordChar x = true)
    ∧ (∀ x ∈ c, isSpaceChar x = true)
    ∧ d ≠ []

/-- Claim C3: a line (of a split source text, hence newline-free) yields
an Anchor Table entry exactly when it decomposes as leading whitespace,
an ampersand, a word-character identifier, optional whitespace and at
least one further character; the recorded replay line is the
concatenation indentation, ampersand, name, one single space, remainder;
and extraction is total: a non-matching line leaves the table unchanged
(nothing is raised, the line is skipped). -/
theorem anchor_line_spec (line : List Char) (hnl : '\n' ∉ line) :
    ((matchAnchorLine line).isSome = true ↔ IsAnchorDecomp line)
    ∧ (∀ (acc : List (String × List Char)) (i n r : List Char),
        matchAnchorLine line = some (i, n, r) →
        anchorStep acc line = dinsert n.asString (i ++ '&' :: (n ++ ' ' :: r)) acc)
    ∧ (∀ acc : List (String × List Char),
        matchAnchorLine line = Option.none → anchorStep acc line = acc) := by
  refine ⟨?_, ?_, ?_⟩
  · constructor
    · intro hsome
      cases hd : line.dropWhile isSpaceChar with
      | nil =>
        rw [show matchAnchorLine line = Option.none from by
          unfold matchAnchorLine; rw [hd]] at hsome
        simp at hsome
      | cons c t =>
        by_cases hc : c = '&'
        · subst hc
          rw [matchAnchorLine_eq_amp line t hd] at hsome
          obtain ⟨hwne, hlen2⟩ := (matchAfterAmp_isSome _ t).mp hsome
          obtain ⟨x, t2, ht, hx⟩ := takeWhile_ne_nil_head isWordChar t hwne
          have hline : line = line.takeWhile isSpaceChar ++ '&' :: t := by
            conv_lhs => rw [← List.takeWhile_append_dropWhile isSpaceChar line]
            rw [hd]
          refine ⟨line.takeWhile isSpaceChar, [x], [], t2, ?_, ?_, ?_, ?_, ?_, ?_⟩
          · have hxx : ([x] ++ [] : List Char) ++ t2 = x :: t2 := by simp
            rw [hxx, ← ht]
            exact hline
          · intro y hy
            exact List.mem_takeWhile_imp hy
          · simp
          · intro y hy
            rw [List.mem_singleton] at hy
            subst hy
            exact hx
          · intro y hy
            cases hy
          · intro h2
            rw [ht, h2] at hlen2
            simp at hlen2
        · rw [show matchAnchorLine line = Option.none from by
            unfold matchAnchorLine; rw [hd]; exact if_neg hc] at hsome
          simp at hsome
    · rintro ⟨a, b, c, d, hline, ha, hbne, hb, hc, hdne⟩
      have hd : line.dropWhile isSpaceChar = '&' :: (b ++ c ++ d) := by
        rw [hline, dropWhile_append_all isSpaceChar a _ ha, List.dropWhile_cons]
        rw [if_neg (by decide : ¬isSpaceChar '&' = true)]
      rw [matchAnchorLine_eq_amp line (b ++ c ++ d) hd, matchAfterAmp_isSome]
      constructor
      · cases b with
        | nil => exact absurd rfl hbne
        | cons x bs =>
          have hx : isWordChar x = true := hb x (List.mem_cons_self x bs)
          simp [List.takeWhile_cons, hx]
      · have hbl : 0 < b.length := List.length_pos.mpr hbne
        have hdl : 0 < d.length := List.length_pos.mpr hdne
        simp only [List.append_assoc, List.length_cons, List.length_append]
        omega
  · intro acc i n r hm
    rw [anchorStep, hm]
    rfl
  · intro acc hm
    rw [anchorStep, hm]

/-- Witness for C3 at the concrete line of two spaces, ampersand, name a,
space, content b: the line is newline-free, the match-iff holds, and the
extraction step records the replay line with a single inserted space. -/
theorem anchor_line_spec_witness :
    ('\n' ∉ "  &a b".data)
    ∧ ((matchAnchorLine "  &a b".data).isSome = true
        ↔ IsAnchorDecomp "  &a b".data)
    ∧ anchorStep [] "  &a b".data
        = dinsert (List.asString ['a'])
            ("  ".data ++ '&' :: (['a'] ++ ' ' :: ['b'])) [] := by
  have h := anchor_line_spec "  &a b".data (by decide)
  exact ⟨by decide, h.1, h.2.1 [] "  ".data ['a'] ['b'] rfl⟩
